import Mathlib

/-!
Verification development for the Ollama discovery / cache subsystem
(`src/agents/models-config.providers.ts`, `src/utils/limit.ts`,
`src/agents/live-model-filter.ts`).

The TypeScript source is shallowly embedded: asynchronous network calls are
abstracted into oracles describing the observable response, JavaScript
numbers appearing in parsed JSON are modelled as rationals, and the
concurrency limiter is modelled as a labelled transition system over its
queue/active-counter state.
-/

namespace OpenClaw

/-- A value appearing in the flat `model_info` map of a probe response.
JSON numbers are finite; the `nonFiniteNum` constructor stands for a
JavaScript number failing `Number.isFinite` (kept so the source's finiteness
check is represented), and `other` for any non-number JSON value. -/
inductive JVal where
  | num (q : ℚ)
  | nonFiniteNum
  | other
deriving DecidableEq

/-- The fixed key suffix denoting context length in `model_info`. -/
def ctxKeySuffix : String := ".context_length"

/-- Embeds `key.endsWith(".context_length")`. -/
def endsWithCtxLen (k : String) : Bool :=
  decide (ctxKeySuffix.toList <:+ k.toList)

/-- Embeds the `for (const [key, value] of Object.entries(data.model_info))`
loop of `queryOllamaContextWindow`: the first entry whose key ends in the
context-length suffix, whose value is a finite number, and whose floor is
positive, yields that floor; all other entries are skipped. -/
def scanCtx : List (String × JVal) → Option Int
  | [] => none
  | (k, v) :: rest =>
    match v with
    | .num q => if endsWithCtxLen k ∧ 0 < q.floor then some q.floor else scanCtx rest
    | _ => scanCtx rest

/-- Observable outcome of one `POST {apiBase}/api/show` probe.
`thrown` covers a rejected fetch (network error, the 3s timeout) and a body
whose JSON parsing throws — all caught by the function's own try/catch. -/
inductive ProbeResponse where
  | thrown
  | result (ok : Bool) (model_info : Option (List (String × JVal)))

/-- Embeds `queryOllamaContextWindow` as a function of the probe outcome. -/
def queryOllamaContextWindow : ProbeResponse → Option Int
  | .thrown => none
  | .result false _ => none
  | .result true none => none
  | .result true (some info) => scanCtx info

/-! ### Base-URL normalization (`resolveOllamaApiBase`) -/

/-- Modelled from the spec: the fixed default base URL constant
`OLLAMA_API_BASE_URL` is imported from `ollama-stream.ts`, which is not part
of the given sources; only its existence matters to the claims. -/
def OLLAMA_API_BASE_URL : String := "http://127.0.0.1:11434"

/-- Embeds `configuredBaseUrl.replace(/\/+$/, "")`: remove the maximal run of
trailing slash characters. -/
def stripTrailingSlashes (l : List Char) : List Char :=
  (l.reverse.dropWhile (· = '/')).reverse

/-- Embeds `trimmed.replace(/\/v1$/i, "")`: remove one trailing
case-insensitive "/v1", when present. The regex matches when the last three
characters are a slash, a v of either case, and the digit 1; the reversed
list then starts with the reversed pattern. -/
def stripV1Ci (l : List Char) : List Char :=
  if l.reverse.take 3 = ['1', 'v', '/'] ∨ l.reverse.take 3 = ['1', 'V', '/'] then
    (l.reverse.drop 3).reverse
  else l

/-- Embeds `resolveOllamaApiBase`. A missing argument and the empty string
are both falsy in JavaScript and select the default constant. -/
def resolveOllamaApiBase (configuredBaseUrl : Option String) : String :=
  match configuredBaseUrl with
  | none => OLLAMA_API_BASE_URL
  | some s =>
    if s = "" then OLLAMA_API_BASE_URL
    else (stripV1Ci (stripTrailingSlashes s.toList)).asString

/-! ### Model descriptors and the reasoning heuristic -/

/-- Modelled from the spec: fixed default context window
(`OLLAMA_DEFAULT_CONTEXT_WINDOW`, defined in `ollama-stream.ts`, outside the
given sources; the claims do not depend on its numeric value). -/
def OLLAMA_DEFAULT_CONTEXT_WINDOW : Int := 8192

/-- Modelled from the spec: fixed default maximum output tokens
(`OLLAMA_DEFAULT_MAX_TOKENS`, defined in `ollama-stream.ts`). -/
def OLLAMA_DEFAULT_MAX_TOKENS : Int := 4096

/-- Embeds `modelId.toLowerCase()`. -/
def lowerChars (s : String) : List Char :=
  s.toList.map Char.toLower

/-- Embeds `haystack.includes(needle)` on strings as list containment. -/
def containsSub (needle : List Char) (haystack : List Char) : Bool :=
  decide (needle <:+: haystack)

/-- Embeds the reasoning heuristic of `discoverOllamaModels`:
`modelId.toLowerCase().includes("r1") || modelId.toLowerCase().includes("reasoning")`. -/
def isReasoningId (modelId : String) : Bool :=
  containsSub "r1".toList (lowerChars modelId) ||
    containsSub "reasoning".toList (lowerChars modelId)

/-- One discovered model (`ModelDefinitionConfig` literal built in
`discoverOllamaModels`). The fixed default cost structure
`OLLAMA_DEFAULT_COST` carries no claim-relevant data and is modelled as a
unit field. -/
structure ModelDescriptor where
  id : String
  name : String
  reasoning : Bool
  input : List String
  cost : Unit
  contextWindow : Int
  maxTokens : Int
deriving DecidableEq

/-- Embeds the object literal returned by the probe task in
`discoverOllamaModels` (lines 131-139 of the source). -/
def assembleDescriptor (ctx : Option Int) (modelId : String) : ModelDescriptor :=
  { id := modelId
    name := modelId
    reasoning := isReasoningId modelId
    input := ["text"]
    cost := ()
    contextWindow := ctx.getD OLLAMA_DEFAULT_CONTEXT_WINDOW
    maxTokens := OLLAMA_DEFAULT_MAX_TOKENS }

/-! ### Discovery (`discoverOllamaModels`) -/

/-- Observable outcome of the `GET {apiBase}/api/tags` request.
`thrown` is a rejected fetch (network error, the 5s timeout); `jsonThrown`
is an OK response whose body fails to parse (`response.json()` rejects);
`ok none` is a parsed body without a usable `models` array (falsy
`data.models?.length`, merged below with the empty list); `ok (some ms)`
carries the listed model names. -/
inductive TagsResult where
  | thrown
  | notOk (status : Nat)
  | jsonThrown
  | ok (models : Option (List String))

/-- Inputs of one discovery pass. `testEnv` is the VITEST / NODE_ENV=test
indicator; `conc` and `maxModels` stand for the configuration constants
`OLLAMA_SHOW_CONCURRENCY` and `OLLAMA_SHOW_MAX_MODELS` (imported from
`ollama-stream.ts`, outside the given sources, hence kept as parameters);
`tags` and `probe` are the oracles for the two network endpoints. The
`quiet` option only changes logging and is not modelled. -/
structure DiscoveryIn where
  testEnv : Bool
  conc : Int
  maxModels : Nat
  tags : TagsResult
  probe : String → ProbeResponse

/-- Body of the try block of `discoverOllamaModels`. Branches that the
source exits with `return []` produce `Except.ok`; places where the source
throws (a rejected tags fetch, a rejected body parse, and the
`limit(OLLAMA_SHOW_CONCURRENCY)` guard) produce `Except.error`. The value
pairs the returned descriptor list with the names actually probed via
`/api/show`; batching through the limiter preserves list order (each batch
is awaited with `Promise.all` before the next), so the result is an ordered
map over the truncated inspection list. -/
def discoverCore (d : DiscoveryIn) : Except String (List ModelDescriptor × List String) :=
  match d.tags with
  | .thrown => .error "fetch rejected"
  | .notOk _ => .ok ([], [])
  | .jsonThrown => .error "body parse rejected"
  | .ok none => .ok ([], [])
  | .ok (some models) =>
    if models.length = 0 then .ok ([], [])
    else if d.conc < 1 then .error "Concurrency limit must be >= 1"
    else
      let toInspect := models.take d.maxModels
      .ok (toInspect.map
            (fun m => assembleDescriptor (queryOllamaContextWindow (d.probe m)) m),
          toInspect)

/-- Embeds `discoverOllamaModels`: the test-environment early return,
then the try/catch converting any exception into the empty list. -/
def discoverOllamaModels (d : DiscoveryIn) : List ModelDescriptor × List String :=
  if d.testEnv then ([], [])
  else
    match discoverCore d with
    | .ok r => r
    | .error _ => ([], [])

/-! ### Cache store and the implicit-provider resolver -/

/-- The provider object placed in the returned provider map and persisted
to the cache (`providers.ollama` in `resolveImplicitProviders`). -/
structure ProviderEntry where
  baseUrl : String
  api : String
  models : List ModelDescriptor
  apiKey : String
deriving DecidableEq

/-- State of the cache file `.openclaw_model_cache.json`. A parsed file is
represented by its `ollama` field; other keys are never read. -/
inductive CacheFile where
  | missing
  | malformed
  | content (ollama : Option ProviderEntry)

/-- Embeds `loadModelCache` followed by the `cached.ollama` lookup: a
missing file and unparsable JSON both give the empty mapping. -/
def loadModelCache : CacheFile → Option ProviderEntry
  | .missing => none
  | .malformed => none
  | .content m => m

/-- JavaScript truthiness of the optional API-key string (`undefined` and
the empty string are falsy). -/
def strTruthy : Option String → Bool
  | none => false
  | some s => s ≠ ""

/-- Embeds `buildOllamaProvider` (base URL, fixed api tag, and the
discovered models; the apiKey field is attached later by the resolver). -/
def buildOllamaProvider (configuredBaseUrl : Option String) (d : DiscoveryIn) :
    String × List ModelDescriptor :=
  (resolveOllamaApiBase configuredBaseUrl, (discoverOllamaModels d).1)

/-- Result of one `resolveImplicitProviders` call: the `ollama` entry of the
returned provider map (`none` = empty map), and the entry handed to
`saveModelCache` when it was invoked (the write itself is best-effort in the
source; `cacheWrite` records the attempted content). -/
structure ResolveOutcome where
  ollama : Option ProviderEntry
  cacheWrite : Option ProviderEntry
deriving DecidableEq

/-- Embeds `resolveImplicitProviders`. The auth-profile store and the
environment lookup live outside the given sources; their combined outcome is
the `ollamaKey` argument. `explicitOllamaBaseUrl` is
`params.explicitProviders?.ollama?.baseUrl`; the explicit-config flag only
selects log verbosity and is not modelled. -/
def resolveImplicitProviders (ollamaKey : Option String)
    (explicitOllamaBaseUrl : Option String) (d : DiscoveryIn)
    (cache : CacheFile) : ResolveOutcome :=
  let p := buildOllamaProvider explicitOllamaBaseUrl d
  if 0 < p.2.length ∨ strTruthy ollamaKey then
    let entry : ProviderEntry :=
      { baseUrl := p.1
        api := "ollama"
        models := p.2
        apiKey := ollamaKey.getD "ollama-local" }
    { ollama := some entry, cacheWrite := some entry }
  else
    match loadModelCache cache with
    | some cached => { ollama := some cached, cacheWrite := none }
    | none => { ollama := none, cacheWrite := none }

/-! ### Concurrency limiter (`utils/limit.ts`)

The limiter is stateful asynchronous code; it is embedded as a labelled
transition system over its observable state. Tasks are identified by
natural numbers. `submitted` and `started` are history variables recording
the order of submissions and of execution starts. -/

/-- Embeds the construction guard of `limit(max)`:
`if (max < 1) throw new Error(...)`. The spec describes `max` as an integer
parallelism bound, so the embedding uses `Int`. -/
def limitConstruct (max : Int) : Except String Unit :=
  if max < 1 then .error "Concurrency limit must be >= 1" else .ok ()

/-- Observable state of one limiter instance: `queued` are the pushed but
not yet started tasks (oldest first, as in the source's array used with
`push`/`shift`), `running` the tasks in flight (the `active` counter is its
length), and the two history lists. -/
structure LimiterState where
  queued : List Nat
  running : List Nat
  started : List Nat
  submitted : List Nat
deriving DecidableEq

/-- Embeds the `next()` closure: when `active < max` and the queue is
non-empty, shift the queue head, increment `active`, and start that task;
otherwise do nothing. One call starts at most one task. -/
def limiterNext (max : Int) (s : LimiterState) : LimiterState :=
  if (s.running.length : Int) < max then
    match s.queued with
    | [] => s
    | t :: rest =>
      { s with
        queued := rest
        running := s.running ++ [t]
        started := s.started ++ [t] }
  else s

/-- The limiter's event steps. `submit` is a call of the returned
scheduling function: the task is pushed onto the queue and `next()` runs
once. `finish` is the `finally` block of a running task: `active` is
decremented and `next()` runs once. A task's own success or failure only
affects its caller, not the state, so the two are not distinguished. -/
inductive LimStep (max : Int) : LimiterState → LimiterState → Prop
  | submit (t : Nat) (s : LimiterState) :
      LimStep max s
        (limiterNext max
          { s with queued := s.queued ++ [t], submitted := s.submitted ++ [t] })
  | finish (t : Nat) (s : LimiterState) (h : t ∈ s.running) :
      LimStep max s (limiterNext max { s with running := s.running.erase t })

/-- The state of a freshly constructed limiter. -/
def initLimiter : LimiterState := ⟨[], [], [], []⟩

/-- States reachable by a limiter constructed with bound `max`. -/
inductive LimReachable (max : Int) : LimiterState → Prop
  | init : LimReachable max initLimiter
  | step {s s' : LimiterState} :
      LimReachable max s → LimStep max s s' → LimReachable max s'

/-! ### Model filter (`live-model-filter.ts`) -/

/-- A model reference as taken by `isModernModelRef`. -/
structure ModelRef where
  provider : Option String
  id : Option String

/-- Whitespace as removed by the JavaScript `String.prototype.trim`
(restricted to the ASCII whitespace characters). -/
def isJsWhitespace (c : Char) : Bool :=
  c = ' ' || c = '\t' || c = '\n' || c = '\r' || c = '\x0b' || c = '\x0c'

/-- Embeds `s.trim()`: remove leading and trailing whitespace. -/
def jsTrim (s : String) : String :=
  (((s.toList.dropWhile isJsWhitespace).reverse.dropWhile isJsWhitespace).reverse).asString

/-- Embeds `isModernModelRef`: `!!ref.provider?.trim() && !!ref.id?.trim()`. -/
def isModernModelRef (ref : ModelRef) : Bool :=
  strTruthy (ref.provider.map jsTrim) && strTruthy (ref.id.map jsTrim)

/-! ## Helper lemmas -/

/-- One `next()` call keeps the active count at or below the bound. -/
theorem limiterNext_running_le {max : Int} {s : LimiterState}
    (h : (s.running.length : Int) ≤ max) :
    (((limiterNext max s).running.length : Int)) ≤ max := by
  unfold limiterNext
  by_cases hlt : (s.running.length : Int) < max
  · rw [if_pos hlt]
    cases s.queued with
    | nil => exact h
    | cons t rest =>
      simp only [List.length_append, List.length_cons, List.length_nil]
      push_cast
      omega
  · rw [if_neg hlt]
    exact h

/-- One `next()` call preserves the submission-order invariant. -/
theorem limiterNext_hist {max : Int} {s : LimiterState}
    (h : s.submitted = s.started ++ s.queued) :
    (limiterNext max s).submitted =
      (limiterNext max s).started ++ (limiterNext max s).queued := by
  unfold limiterNext
  by_cases hlt : (s.running.length : Int) < max
  · rw [if_pos hlt]
    cases hq : s.queued with
    | nil => simpa using h
    | cons t rest =>
      simp only []
      rw [h, hq, List.append_assoc]
      simp
  · rw [if_neg hlt]
    exact h

/-! ## Claims -/

/-- C3: limit(max) throws exactly for max below 1 — the construction guard
`if (max < 1) throw new Error(...)` fails for every max below 1, and for
every max at least 1 the limiter is constructed without error. -/
theorem limiter_construction_threshold (max : Int) :
    (max < 1 → limitConstruct max = .error "Concurrency limit must be >= 1") ∧
    (1 ≤ max → limitConstruct max = .ok ()) := by
  constructor
  · intro h
    unfold limitConstruct
    rw [if_pos h]
  · intro h
    unfold limitConstruct
    rw [if_neg (not_lt.2 h)]

theorem limiter_construction_threshold_witness :
    limitConstruct 0 = .error "Concurrency limit must be >= 1" ∧
    limitConstruct 1 = .ok () :=
  ⟨(limiter_construction_threshold 0).1 (by decide),
   (limiter_construction_threshold 1).2 (by decide)⟩

/-- A single limiter event preserves the cap-and-FIFO invariant. -/
theorem limStep_preserves {max : Int} {s s' : LimiterState}
    (hstep : LimStep max s s')
    (h : ((s.running.length : Int) ≤ max) ∧ s.submitted = s.started ++ s.queued) :
    ((s'.running.length : Int) ≤ max) ∧ s'.submitted = s'.started ++ s'.queued := by
  cases hstep with
  | submit t =>
    refine ⟨limiterNext_running_le ?_, limiterNext_hist ?_⟩
    · exact h.1
    · show s.submitted ++ [t] = s.started ++ (s.queued ++ [t])
      rw [h.2, List.append_assoc]
  | finish t hmem =>
    refine ⟨limiterNext_running_le ?_, limiterNext_hist ?_⟩
    · calc (((s.running.erase t).length : Int))
          ≤ (s.running.length : Int) := by
            exact_mod_cast (List.erase_sublist t s.running).length_le
        _ ≤ max := h.1
    · exact h.2

/-- C2: for every bound max at least 1, every reachable limiter state has
at most max tasks in flight, and the history of execution starts followed by
the still-queued tasks equals the submission history — queued tasks begin in
submission (FIFO) order as capacity frees up. -/
theorem limiter_cap_and_fifo (max : Int) (hmax : 1 ≤ max) (s : LimiterState)
    (hr : LimReachable max s) :
    ((s.running.length : Int) ≤ max) ∧ s.submitted = s.started ++ s.queued := by
  induction hr with
  | init =>
    refine ⟨?_, rfl⟩
    simp only [initLimiter, List.length_nil, Nat.cast_zero]
    omega
  | step _ hstep ih => exact limStep_preserves hstep ih

theorem limiter_cap_and_fifo_witness :
    (((limiterNext 2 ⟨[0], [], [], [0]⟩).running.length : Int) ≤ 2) ∧
    (limiterNext 2 ⟨[0], [], [], [0]⟩).submitted =
      (limiterNext 2 ⟨[0], [], [], [0]⟩).started ++
        (limiterNext 2 ⟨[0], [], [], [0]⟩).queued :=
  limiter_cap_and_fifo 2 (by decide) _
    (LimReachable.step LimReachable.init (LimStep.submit 0 initLimiter))

/-- C5: for a tag list of length L returned by the backend and inspection
cap C, running discovery outside the test environment with a constructible
concurrency bound probes exactly min(L, C) models, and the returned
descriptor list has one entry per probed model. -/
theorem discover_probe_count (conc : Int) (maxModels : Nat)
    (models : List String) (probe : String → ProbeResponse) (hconc : 1 ≤ conc) :
    ((discoverOllamaModels ⟨false, conc, maxModels, .ok (some models), probe⟩).2.length
      = min models.length maxModels) ∧
    ((discoverOllamaModels ⟨false, conc, maxModels, .ok (some models), probe⟩).1.length
      = (discoverOllamaModels ⟨false, conc, maxModels, .ok (some models), probe⟩).2.length) := by
  have hc : ¬ (conc < 1) := not_lt.2 hconc
  by_cases hm : models.length = 0
  · simp [discoverOllamaModels, discoverCore, hm]
  · simp [discoverOllamaModels, discoverCore, hm, hc, Nat.min_comm]

theorem discover_probe_count_witness :
    ((discoverOllamaModels ⟨false, 2, 1, .ok (some ["a", "b"]),
        fun _ => .thrown⟩).2.length = min (["a", "b"] : List String).length 1) ∧
    ((discoverOllamaModels ⟨false, 2, 1, .ok (some ["a", "b"]),
        fun _ => .thrown⟩).1.length
      = (discoverOllamaModels ⟨false, 2, 1, .ok (some ["a", "b"]),
          fun _ => .thrown⟩).2.length) :=
  discover_probe_count 2 1 ["a", "b"] (fun _ => .thrown) (by decide)

/-- C7: discovery never propagates an error — under the test-environment
indicator it returns the empty list immediately, any exception inside the
try block is converted by the catch into the empty list, and every failing
tags request (rejected fetch, non-OK status, unparsable body, missing model
array) yields the empty model list. -/
theorem discover_never_errors (d : DiscoveryIn) :
    (d.testEnv = true → discoverOllamaModels d = ([], [])) ∧
    (∀ msg, discoverCore d = .error msg → discoverOllamaModels d = ([], [])) ∧
    ((d.tags = .thrown ∨ d.tags = .jsonThrown ∨ (∃ st, d.tags = .notOk st) ∨
        d.tags = .ok none) → (discoverOllamaModels d).1 = []) := by
  refine ⟨fun h => by simp [discoverOllamaModels, h], fun msg h => ?_, fun h => ?_⟩
  · cases ht : d.testEnv <;> simp [discoverOllamaModels, ht, h]
  · rcases h with h | h | ⟨st, h⟩ | h <;>
      cases ht : d.testEnv <;>
      simp [discoverOllamaModels, discoverCore, ht, h]

theorem discover_never_errors_witness :
    discoverOllamaModels ⟨true, 4, 20, .ok (some ["a"]), fun _ => .thrown⟩
      = ([], []) :=
  (discover_never_errors ⟨true, 4, 20, .ok (some ["a"]), fun _ => .thrown⟩).1 rfl

/-- C8: an assembled descriptor is flagged reasoning exactly when the model
id contains, in any character case, the substring r1 or the substring
reasoning — equivalently, when the lowercased id contains one of the two
lowercase needles. -/
theorem reasoning_heuristic (ctx : Option Int) (modelId : String) :
    (assembleDescriptor ctx modelId).reasoning = true ↔
      ∃ sub : List Char, sub <:+: modelId.toList ∧
        (sub.map Char.toLower = "r1".toList ∨
         sub.map Char.toLower = "reasoning".toList) := by
  show isReasoningId modelId = true ↔ _
  unfold isReasoningId containsSub lowerChars
  simp only [Bool.or_eq_true, decide_eq_true_eq, List.isInfix_map_iff]
  constructor
  · rintro (⟨l, hl, he⟩ | ⟨l, hl, he⟩)
    · exact ⟨l, hl, Or.inl he.symm⟩
    · exact ⟨l, hl, Or.inr he.symm⟩
  · rintro ⟨l, hl, he | he⟩
    · exact Or.inl ⟨l, hl, he.symm⟩
    · exact Or.inr ⟨l, hl, he.symm⟩

/-- The scan yields nothing when no key carries the context-length suffix. -/
theorem scanCtx_none_of_no_key (info : List (String × JVal))
    (hall : ∀ kv ∈ info, endsWithCtxLen kv.1 = false) :
    scanCtx info = none := by
  induction info with
  | nil => rfl
  | cons kv rest ih =>
    obtain ⟨k, v⟩ := kv
    have hk : endsWithCtxLen k = false := hall (k, v) (List.mem_cons_self _ _)
    have hrest : ∀ kv ∈ rest, endsWithCtxLen kv.1 = false :=
      fun kv h => hall kv (List.mem_cons_of_mem _ h)
    cases v with
    | num q => simp [scanCtx, hk, ih hrest]
    | nonFiniteNum => simpa [scanCtx] using ih hrest
    | other => simpa [scanCtx] using ih hrest

/-- Entries that do not satisfy the full match condition (suffix key, finite
number, positive floor) are skipped by the scan. -/
theorem scanCtx_skip_prefix (pre rest : List (String × JVal))
    (hpre : ∀ k v, (k, v) ∈ pre →
      ¬(endsWithCtxLen k = true ∧ ∃ q, v = JVal.num q ∧ 0 < q.floor)) :
    scanCtx (pre ++ rest) = scanCtx rest := by
  induction pre with
  | nil => rfl
  | cons kv pre' ih =>
    obtain ⟨k, v⟩ := kv
    have hk := hpre k v (List.mem_cons_self _ _)
    have hpre' : ∀ k v, (k, v) ∈ pre' →
        ¬(endsWithCtxLen k = true ∧ ∃ q, v = JVal.num q ∧ 0 < q.floor) :=
      fun k v h => hpre k v (List.mem_cons_of_mem _ h)
    cases v with
    | num q =>
      have hcond : ¬(endsWithCtxLen k = true ∧ 0 < q.floor) :=
        fun ⟨h1, h2⟩ => hk ⟨h1, q, rfl, h2⟩
      simp only [List.cons_append, scanCtx]
      rw [if_neg hcond]
      exact ih hpre'
    | nonFiniteNum => simpa [scanCtx] using ih hpre'
    | other => simpa [scanCtx] using ih hpre'

/-- C4 (amended): a probe response whose metadata has no key ending in the
context-length suffix yields no context window, so the assembled descriptor
falls back to the default; and when the metadata is an earlier block of
non-matching entries followed by a suffix-keyed finite number whose floor is
positive, that first full match wins and the scan yields the floored value.
(A matching key whose finite positive value floors to zero is skipped, not
returned — this is where the original claim fails.) -/
theorem context_scan_first_positive_floor (info : List (String × JVal)) :
    ((∀ kv ∈ info, endsWithCtxLen kv.1 = false) →
      queryOllamaContextWindow (.result true (some info)) = none ∧
      (∀ modelId,
        (assembleDescriptor (queryOllamaContextWindow (.result true (some info)))
          modelId).contextWindow = OLLAMA_DEFAULT_CONTEXT_WINDOW)) ∧
    (∀ pre k q post,
      info = pre ++ (k, JVal.num q) :: post →
      endsWithCtxLen k = true → 0 < q.floor →
      (∀ k' v', (k', v') ∈ pre →
        ¬(endsWithCtxLen k' = true ∧ ∃ q', v' = JVal.num q' ∧ 0 < q'.floor)) →
      queryOllamaContextWindow (.result true (some info)) = some q.floor) := by
  constructor
  · intro hall
    have h0 : scanCtx info = none := scanCtx_none_of_no_key info hall
    refine ⟨h0, fun modelId => ?_⟩
    show ((scanCtx info).getD OLLAMA_DEFAULT_CONTEXT_WINDOW) = _
    rw [h0]
    rfl
  · intro pre k q post hinfo hk hq hpre
    show scanCtx info = some q.floor
    rw [hinfo, scanCtx_skip_prefix pre _ hpre]
    simp [scanCtx, hk, hq]

theorem context_scan_first_positive_floor_witness :
    queryOllamaContextWindow
      (.result true (some [("tokenizer.pad", JVal.other),
        ("general.context_length", JVal.num (mkRat 4096 1))]))
      = some (mkRat 4096 1).floor :=
  (context_scan_first_positive_floor _).2
    [("tokenizer.pad", JVal.other)] "general.context_length" (mkRat 4096 1) []
    rfl (by decide) (by decide)
    (by
      intro k' v' h
      rcases List.mem_singleton.mp h with heq
      rintro ⟨_, q', hv, _⟩
      rw [Prod.mk.injEq] at heq
      rw [heq.2] at hv
      exact JVal.noConfusion hv)

/-- C4 counterexample: the key matches and the value one half is a finite
positive number, yet the scan yields nothing instead of the floored value —
the code additionally requires the floor itself to be positive. -/
theorem context_scan_half_counterexample :
    ((0 : ℚ) < mkRat 1 2) ∧ endsWithCtxLen "m.context_length" = true ∧
    queryOllamaContextWindow
      (.result true (some [("m.context_length", JVal.num (mkRat 1 2))])) = none :=
  ⟨by decide, by decide, by decide⟩

/-- C10: when an API key resolves (a truthy string) and discovery yields no
models, the resolver still returns a provider entry with an empty model list
and the resolved key, and hands exactly that zero-model entry to
saveModelCache, for every prior cache state — the cache is never consulted
on this path. -/
theorem resolver_key_overwrites_cache (k : String) (hk : k ≠ "")
    (ebu : Option String) (d : DiscoveryIn)
    (hmodels : (discoverOllamaModels d).1 = []) (cache : CacheFile) :
    resolveImplicitProviders (some k) ebu d cache =
      { ollama := some { baseUrl := resolveOllamaApiBase ebu, api := "ollama",
                         models := [], apiKey := k },
        cacheWrite := some { baseUrl := resolveOllamaApiBase ebu, api := "ollama",
                             models := [], apiKey := k } } := by
  unfold resolveImplicitProviders buildOllamaProvider
  simp [hmodels, strTruthy, hk]

theorem resolver_key_overwrites_cache_witness :
    resolveImplicitProviders (some "sk-1") none
        ⟨true, 1, 1, .thrown, fun _ => .thrown⟩ (.content (some
          { baseUrl := "http://y", api := "ollama",
            models := [assembleDescriptor none "old-model"], apiKey := "old" })) =
      { ollama := some { baseUrl := resolveOllamaApiBase none, api := "ollama",
                         models := [], apiKey := "sk-1" },
        cacheWrite := some { baseUrl := resolveOllamaApiBase none, api := "ollama",
                             models := [], apiKey := "sk-1" } } :=
  resolver_key_overwrites_cache "sk-1" (by decide) none
    ⟨true, 1, 1, .thrown, fun _ => .thrown⟩ rfl _

/-- C1 (amended): when discovery yields no models and no API key resolves
(the key is absent or empty, hence falsy), the resolver returns the empty
provider map if the cache file is missing, and returns exactly the cached
ollama entry, with no cache write, whenever the loaded cache holds one. -/
theorem resolver_fallback_no_key (key : Option String)
    (hk : strTruthy key = false) (ebu : Option String) (d : DiscoveryIn)
    (hmodels : (discoverOllamaModels d).1 = []) (cache : CacheFile) :
    (cache = .missing →
      resolveImplicitProviders key ebu d cache =
        { ollama := none, cacheWrite := none }) ∧
    (∀ e, loadModelCache cache = some e →
      resolveImplicitProviders key ebu d cache =
        { ollama := some e, cacheWrite := none }) := by
  constructor
  · rintro rfl
    unfold resolveImplicitProviders buildOllamaProvider
    simp [hmodels, hk, loadModelCache]
  · intro e he
    unfold resolveImplicitProviders buildOllamaProvider
    simp [hmodels, hk, he]

theorem resolver_fallback_no_key_witness :
    (resolveImplicitProviders none none
        ⟨false, 4, 20, .thrown, fun _ => .thrown⟩ .missing =
      { ollama := none, cacheWrite := none }) ∧
    (resolveImplicitProviders none none
        ⟨false, 4, 20, .thrown, fun _ => .thrown⟩
        (.content (some { baseUrl := "http://y", api := "ollama",
                          models := [], apiKey := "cached-key" })) =
      { ollama := some { baseUrl := "http://y", api := "ollama",
                         models := [], apiKey := "cached-key" },
        cacheWrite := none }) :=
  ⟨(resolver_fallback_no_key none rfl none
      ⟨false, 4, 20, .thrown, fun _ => .thrown⟩ rfl .missing).1 rfl,
   (resolver_fallback_no_key none rfl none
      ⟨false, 4, 20, .thrown, fun _ => .thrown⟩ rfl _).2 _ rfl⟩

/-- C1 counterexample: the backend is unreachable (the tags fetch rejects,
so discovery yields no models) and no cache file exists, yet with a resolved
API key the returned provider map is not empty — the claim omits the
key-present case. -/
theorem resolver_key_without_models_counterexample :
    (discoverOllamaModels ⟨false, 4, 20, .thrown, fun _ => .thrown⟩).1 = [] ∧
    (resolveImplicitProviders (some "sk-test") none
        ⟨false, 4, 20, .thrown, fun _ => .thrown⟩ .missing).ollama ≠ none := by
  exact ⟨rfl, by decide⟩

/-- Every list splits as its trailing-slash-stripped form followed by a run
of slashes. -/
theorem stripTrailingSlashes_decomp (l : List Char) :
    ∃ n, l = stripTrailingSlashes l ++ List.replicate n '/' := by
  have hsplit : l.reverse.takeWhile (· = '/') ++ l.reverse.dropWhile (· = '/')
      = l.reverse := List.takeWhile_append_dropWhile _ _
  have hmain : l = stripTrailingSlashes l ++ (l.reverse.takeWhile (· = '/')).reverse := by
    conv_lhs => rw [← List.reverse_reverse l, ← hsplit]
    rw [List.reverse_append]
    rfl
  have htw : (l.reverse.takeWhile (· = '/')).reverse =
      List.replicate (l.reverse.takeWhile (· = '/')).length '/' := by
    rw [List.eq_replicate_iff]
    refine ⟨List.length_reverse _, fun b hb => ?_⟩
    rw [List.mem_reverse] at hb
    simpa using List.mem_takeWhile_imp hb
  refine ⟨(l.reverse.takeWhile (· = '/')).length, ?_⟩
  calc l = stripTrailingSlashes l ++ (l.reverse.takeWhile (· = '/')).reverse := hmain
    _ = stripTrailingSlashes l
        ++ List.replicate (l.reverse.takeWhile (· = '/')).length '/' := by rw [htw]

/-- stripV1Ci either leaves the list unchanged or removes exactly one
trailing case-variant of the three characters slash, v, one. -/
theorem stripV1Ci_decomp (l : List Char) :
    stripV1Ci l = l ∨ l = stripV1Ci l ++ ['/', 'v', '1'] ∨
      l = stripV1Ci l ++ ['/', 'V', '1'] := by
  unfold stripV1Ci
  by_cases h : l.reverse.take 3 = ['1', 'v', '/'] ∨ l.reverse.take 3 = ['1', 'V', '/']
  · rw [if_pos h]
    have hsplit : l.reverse.take 3 ++ l.reverse.drop 3 = l.reverse :=
      List.take_append_drop _ _
    rcases h with h | h
    · refine Or.inr (Or.inl ?_)
      conv_lhs => rw [← List.reverse_reverse l, ← hsplit]
      rw [List.reverse_append, h]
      rfl
    · refine Or.inr (Or.inr ?_)
      conv_lhs => rw [← List.reverse_reverse l, ← hsplit]
      rw [List.reverse_append, h]
      rfl
  · rw [if_neg h]
    exact Or.inl rfl

/-- C6 (amended): the two example mappings hold, and for every non-empty
configured base URL the input is exactly the returned URL followed by at
most one case-variant of the slash-v-one block and a run of trailing
slashes — the function removes only such a suffix and preserves every other
path segment. (The returned URL can still end in a slash or a /v1 block
when the input stacks them; that part of the original claim fails.) -/
theorem resolve_base_decomposition :
    (resolveOllamaApiBase (some "http://x/v1/") = "http://x" ∧
     resolveOllamaApiBase (some "http://x") = "http://x") ∧
    (∀ s : String, s ≠ "" →
      ∃ (mid : List Char) (n : ℕ),
        s.toList = (resolveOllamaApiBase (some s)).toList ++ mid
            ++ List.replicate n '/' ∧
        (mid = [] ∨ mid = ['/', 'v', '1'] ∨ mid = ['/', 'V', '1'])) := by
  refine ⟨⟨by decide, by decide⟩, fun s hs => ?_⟩
  have hres : resolveOllamaApiBase (some s)
      = (stripV1Ci (stripTrailingSlashes s.toList)).asString := by
    unfold resolveOllamaApiBase
    simp [hs]
  rw [hres]
  obtain ⟨n, hn⟩ := stripTrailingSlashes_decomp s.toList
  rcases stripV1Ci_decomp (stripTrailingSlashes s.toList) with h | h | h
  · refine ⟨[], n, ?_, Or.inl rfl⟩
    show s.toList = stripV1Ci (stripTrailingSlashes s.toList) ++ []
        ++ List.replicate n '/'
    rw [List.append_nil, h]
    exact hn
  · refine ⟨['/', 'v', '1'], n, ?_, Or.inr (Or.inl rfl)⟩
    show s.toList = stripV1Ci (stripTrailingSlashes s.toList) ++ ['/', 'v', '1']
        ++ List.replicate n '/'
    conv_rhs => rw [← h]
    exact hn
  · refine ⟨['/', 'V', '1'], n, ?_, Or.inr (Or.inr rfl)⟩
    show s.toList = stripV1Ci (stripTrailingSlashes s.toList) ++ ['/', 'V', '1']
        ++ List.replicate n '/'
    conv_rhs => rw [← h]
    exact hn

theorem resolve_base_decomposition_witness :
    ∃ (mid : List Char) (n : ℕ),
      "a/v1//".toList = (resolveOllamaApiBase (some "a/v1//")).toList ++ mid
          ++ List.replicate n '/' ∧
      (mid = [] ∨ mid = ['/', 'v', '1'] ∨ mid = ['/', 'V', '1']) :=
  resolve_base_decomposition.2 "a/v1//" (by decide)

/-- C6 counterexample: with stacked /v1 blocks only the last is removed, so
the returned URL still ends in a /v1 block, refuting the claim that the
result never ends with a trailing slash or a /v1 block. -/
theorem resolve_base_stacked_v1_counterexample :
    resolveOllamaApiBase (some "http://x/v1/v1") = "http://x/v1" ∧
    "/v1".toList <:+ "http://x/v1".toList ∧
    resolveOllamaApiBase (some "http://x//v1") = "http://x/" ∧
    "/".toList <:+ "http://x/".toList :=
  ⟨by decide, by decide, by decide, by decide⟩

/-- C9 (amended): the filter rejects nothing based on the model identity,
but it is not a constant true predicate — it returns true exactly when both
the provider and the id are present and non-blank after trimming. -/
theorem model_ref_filter_presence (ref : ModelRef) :
    isModernModelRef ref = true ↔
      ((∃ p, ref.provider = some p ∧ jsTrim p ≠ "") ∧
       (∃ i, ref.id = some i ∧ jsTrim i ≠ "")) := by
  obtain ⟨op, oi⟩ := ref
  cases op <;> cases oi <;> simp [isModernModelRef, strTruthy]

/-- C9 counterexample: a reference without a provider is rejected, so the
predicate is not a no-op returning true on every model reference. -/
theorem model_ref_missing_provider_counterexample :
    isModernModelRef ⟨none, some "llama3"⟩ = false := by
  decide

end OpenClaw
